import Mathlib

/-!
Verification of the BotClienty Discord markdown renderer
(`parseDiscordMarkdown` / `parseInlineMarkdown` in `src/app/client.tsx`)
and of the authenticated API proxy
(`handleDiscordRequest` in `src/app/api/discord/[...path]/route.ts`).

Strings are modelled as `List Char`.  The JS `while` loops are modelled
as fuel-indexed recursions returning `Option`: `none` stands for a loop
that would not terminate (or a thrown exception), so totality of the
source is the theorem that enough fuel always yields `some`.
Each JS regex used by the source is anchored (`^...`) and deterministic
(every quantified character class excludes the character that must
follow it), so each is embedded as a maximal-munch matcher.
-/

namespace BotClienty

/-- Strings are lists of characters. -/
abbrev Str := List Char

/-- Embed a Lean string literal as a `Str`. -/
def strLit (s : String) : Str := s.data

/-- JS `\s` / `String.prototype.trim` whitespace, restricted to the ASCII
whitespace characters (space, tab, newline, carriage return, vertical tab,
form feed). -/
def isWsChar (c : Char) : Bool :=
  c = ' ' || c = '\t' || c = '\n' || c = '\r' || c = '\x0b' || c = '\x0c'

/-- JS `\w`: ASCII letters, digits and underscore. -/
def isWordChar (c : Char) : Bool := c.isAlphanum || c = '_'

/-- JS `\d`: ASCII digits. -/
def isDigitChar (c : Char) : Bool := c.isDigit

/-- JS `String.prototype.trim` (over the modelled whitespace set). -/
def trim (s : Str) : Str :=
  ((s.dropWhile isWsChar).reverse.dropWhile isWsChar).reverse

/-- `startsWith pre s` is JS `s.startsWith(pre)`. -/
def startsWith : Str → Str → Bool
  | [], _ => true
  | _ :: _, [] => false
  | p :: ps, c :: cs => p = c && startsWith ps cs

/-- The code-fence content accumulator (client.tsx line 160):
`codeContent += (codeContent ? '\n' : '') + lines[i]` — the newline
separator is added only when the accumulated content is already non-empty
(truthy), so leading empty lines inside a fence contribute nothing. -/
def codeAccum (acc : Str) : List Str → Str
  | [] => acc
  | l :: ls => codeAccum (acc ++ (if acc = [] then [] else ['\n']) ++ l) ls

/-- JS `array.join('/')`. -/
def joinSlash : List Str → Str
  | [] => []
  | [l] => l
  | l :: ls => l ++ '/' :: joinSlash ls

/-- JS `text.split('\n')` (always at least one line). -/
def splitLines : Str → List Str
  | [] => [[]]
  | c :: rest =>
    if c = '\n' then [] :: splitLines rest
    else
      match splitLines rest with
      | [] => [[c]]
      | l :: ls => (c :: l) :: ls

/-- `decodeHtmlEntities` (client.tsx line 128): global replacement of the six
HTML entities, leftmost match first, alternatives tried in source order. -/
def decodeHtmlEntities : Str → Str
  | '&' :: 'a' :: 'm' :: 'p' :: ';' :: r => '&' :: decodeHtmlEntities r
  | '&' :: 'l' :: 't' :: ';' :: r => '<' :: decodeHtmlEntities r
  | '&' :: 'g' :: 't' :: ';' :: r => '>' :: decodeHtmlEntities r
  | '&' :: 'q' :: 'u' :: 'o' :: 't' :: ';' :: r => '"' :: decodeHtmlEntities r
  | '&' :: '#' :: '0' :: '3' :: '9' :: ';' :: r => '\'' :: decodeHtmlEntities r
  | '&' :: 'a' :: 'p' :: 'o' :: 's' :: ';' :: r => '\'' :: decodeHtmlEntities r
  | c :: r => c :: decodeHtmlEntities r
  | [] => []

/-! ### Inline token matchers (the anchored regexes of `parseInlineMarkdown`) -/

/-- Regex `^<(a?):(\w+):(\d+)>` (custom emoji).  Returns
`(animated, name, id, rest)`. -/
def matchEmoji (s : Str) : Option (Bool × Str × Str × Str) :=
  match s with
  | '<' :: 'a' :: ':' :: r => emojiTail true r
  | '<' :: ':' :: r => emojiTail false r
  | _ => none
where
  /-- Matches `(\w+):(\d+)>` after the opening `<a?:`. -/
  emojiTail (animated : Bool) (r : Str) : Option (Bool × Str × Str × Str) :=
    match r.dropWhile isWordChar with
    | ':' :: r2 =>
      match r2.dropWhile isDigitChar with
      | '>' :: r3 =>
        if r.takeWhile isWordChar ≠ [] ∧ r2.takeWhile isDigitChar ≠ [] then
          some (animated, r.takeWhile isWordChar, r2.takeWhile isDigitChar, r3)
        else none
      | _ => none
    | _ => none

/-- Regex `^dd([^d]+?)dd` for a doubled one-character delimiter `d`
(bold `**`, underline `__`, strikethrough `~~`, spoiler `||`).
The lazy inner group excludes the delimiter character, so the match is the
maximal run of non-delimiter characters followed by the doubled delimiter. -/
def matchDelim2 (d : Char) : Str → Option (Str × Str)
  | c1 :: c2 :: rest =>
    if c1 = d ∧ c2 = d then
      match rest.dropWhile (fun c => c ≠ d) with
      | e1 :: e2 :: r3 =>
        if e1 = d ∧ e2 = d ∧ rest.takeWhile (fun c => c ≠ d) ≠ [] then
          some (rest.takeWhile (fun c => c ≠ d), r3)
        else none
      | _ => none
    else none
  | _ => none

/-- Regex `^d([^d]+?)d` for a single one-character delimiter `d`
(inline code with a backtick). -/
def matchDelim1 (d : Char) : Str → Option (Str × Str)
  | c :: rest =>
    if c = d then
      match rest.dropWhile (fun c => c ≠ d) with
      | e :: r2 =>
        if e = d ∧ rest.takeWhile (fun c => c ≠ d) ≠ [] then
          some (rest.takeWhile (fun c => c ≠ d), r2)
        else none
      | _ => none
    else none
  | _ => none

/-- Regex `^(\*|_)([^*_]+?)\1` (italic): either delimiter opens, the inner
group excludes both, and the same delimiter must close. -/
def matchItalic : Str → Option (Str × Str)
  | d :: rest =>
    if d = '*' ∨ d = '_' then
      match rest.dropWhile (fun c => c ≠ '*' ∧ c ≠ '_') with
      | e :: r2 =>
        if e = d ∧ rest.takeWhile (fun c => c ≠ '*' ∧ c ≠ '_') ≠ [] then
          some (rest.takeWhile (fun c => c ≠ '*' ∧ c ≠ '_'), r2)
        else none
      | _ => none
    else none
  | _ => none

/-- Matches the common mention tail `(\d+)>`: one or more digits then `>`. -/
def digitsThenGt (r : Str) : Option (Str × Str) :=
  match r.dropWhile isDigitChar with
  | '>' :: r3 =>
    if r.takeWhile isDigitChar ≠ [] then some (r.takeWhile isDigitChar, r3)
    else none
  | _ => none

/-- Regex `^<@!?(\d+)>` (user mention). -/
def matchUser (s : Str) : Option (Str × Str) :=
  match s with
  | '<' :: '@' :: '!' :: r => digitsThenGt r
  | '<' :: '@' :: r => digitsThenGt r
  | _ => none

/-- Regex `^<@&(\d+)>` (role mention). -/
def matchRole (s : Str) : Option (Str × Str) :=
  match s with
  | '<' :: '@' :: '&' :: r => digitsThenGt r
  | _ => none

/-- Regex `^<#(\d+)>` (channel mention). -/
def matchChannel (s : Str) : Option (Str × Str) :=
  match s with
  | '<' :: '#' :: r => digitsThenGt r
  | _ => none

/-- Regex `^\[([^\]]+)\]\(([^)]+)\)` (link): returns `(label, url, rest)`. -/
def matchLink (s : Str) : Option (Str × Str × Str) :=
  match s with
  | '[' :: r =>
    match r.dropWhile (fun c => c ≠ ']') with
    | ']' :: '(' :: r2 =>
      match r2.dropWhile (fun c => c ≠ ')') with
      | ')' :: r3 =>
        if r.takeWhile (fun c => c ≠ ']') ≠ [] ∧
            r2.takeWhile (fun c => c ≠ ')') ≠ [] then
          some (r.takeWhile (fun c => c ≠ ']'), r2.takeWhile (fun c => c ≠ ')'), r3)
        else none
      | _ => none
    | _ => none
  | _ => none

/-! ### Inline AST and the inline pass -/

/-- One inline node pushed to `segments` by `parseInlineMarkdown`.
The plain-text fallback pushes one character per node, exactly as the source
pushes one one-character span per loop iteration. -/
inductive Inline where
  | text (c : Char)
  | emoji (animated : Bool) (name : Str) (id : Str)
  | bold (children : List Inline)
  | underline (children : List Inline)
  | italic (children : List Inline)
  | strike (children : List Inline)
  | code (value : Str)
  | spoiler (children : List Inline)
  | userMention (id : Str)
  | roleMention (id : Str)
  | channelMention (id : Str)
  | link (label : Str) (url : Str)

/-- The raw token recognised at one cursor position, before the recursive
re-parse of captured groups. -/
inductive RawTok where
  | emojiT (animated : Bool) (name : Str) (id : Str)
  | boldT (inner : Str)
  | underlineT (inner : Str)
  | italicT (inner : Str)
  | strikeT (inner : Str)
  | codeT (value : Str)
  | spoilerT (inner : Str)
  | userT (id : Str)
  | roleT (id : Str)
  | channelT (id : Str)
  | linkT (label : Str) (url : Str)

/-- Custom-emoji attempt as a token matcher. -/
def emojiTok (s : Str) : Option (RawTok × Str) :=
  match matchEmoji s with
  | some (a, n, i, r) => some (.emojiT a n i, r)
  | none => none

/-- Bold attempt (`^\*\*([^*]+?)\*\*`). -/
def boldTok (s : Str) : Option (RawTok × Str) :=
  match matchDelim2 '*' s with
  | some (inner, r) => some (.boldT inner, r)
  | none => none

/-- Underline attempt (`^__([^_]+?)__`). -/
def underlineTok (s : Str) : Option (RawTok × Str) :=
  match matchDelim2 '_' s with
  | some (inner, r) => some (.underlineT inner, r)
  | none => none

/-- Italic attempt (`^(\*|_)([^*_]+?)\1`). -/
def italicTok (s : Str) : Option (RawTok × Str) :=
  match matchItalic s with
  | some (inner, r) => some (.italicT inner, r)
  | none => none

/-- Strikethrough attempt (`^~~([^~]+?)~~`). -/
def strikeTok (s : Str) : Option (RawTok × Str) :=
  match matchDelim2 '~' s with
  | some (inner, r) => some (.strikeT inner, r)
  | none => none

/-- Inline-code attempt (backtick-delimited). -/
def codeTok (s : Str) : Option (RawTok × Str) :=
  match matchDelim1 '`' s with
  | some (v, r) => some (.codeT v, r)
  | none => none

/-- Spoiler attempt (`^\|\|([^|]+?)\|\|`). -/
def spoilerTok (s : Str) : Option (RawTok × Str) :=
  match matchDelim2 '|' s with
  | some (inner, r) => some (.spoilerT inner, r)
  | none => none

/-- User-mention attempt (`^<@!?(\d+)>`). -/
def userTok (s : Str) : Option (RawTok × Str) :=
  match matchUser s with
  | some (i, r) => some (.userT i, r)
  | none => none

/-- Role-mention attempt (`^<@&(\d+)>`). -/
def roleTok (s : Str) : Option (RawTok × Str) :=
  match matchRole s with
  | some (i, r) => some (.roleT i, r)
  | none => none

/-- Channel-mention attempt (`^<#(\d+)>`). -/
def channelTok (s : Str) : Option (RawTok × Str) :=
  match matchChannel s with
  | some (i, r) => some (.channelT i, r)
  | none => none

/-- Link attempt (`^\[([^\]]+)\]\(([^)]+)\)`). -/
def linkTok (s : Str) : Option (RawTok × Str) :=
  match matchLink s with
  | some (l, u, r) => some (.linkT l u, r)
  | none => none

/-- The token attempt at one cursor position, embedding the if/continue chain
of `parseInlineMarkdown` (client.tsx lines 247-385): each regex is tried at
the current position in source order and the first success is taken. -/
def tokStep (s : Str) : Option (RawTok × Str) :=
  match emojiTok s with
  | some x => some x
  | none =>
  match boldTok s with
  | some x => some x
  | none =>
  match underlineTok s with
  | some x => some x
  | none =>
  match italicTok s with
  | some x => some x
  | none =>
  match strikeTok s with
  | some x => some x
  | none =>
  match codeTok s with
  | some x => some x
  | none =>
  match spoilerTok s with
  | some x => some x
  | none =>
  match userTok s with
  | some x => some x
  | none =>
  match roleTok s with
  | some x => some x
  | none =>
  match channelTok s with
  | some x => some x
  | none =>
  match linkTok s with
  | some x => some x
  | none => none

/-- The spec's priority list: custom-emoji, bold, underline, italic,
strikethrough, inline-code, spoiler, user-mention, role-mention,
channel-mention, link. -/
def specMatchers : List (Str → Option (RawTok × Str)) :=
  [emojiTok, boldTok, underlineTok, italicTok, strikeTok, codeTok,
   spoilerTok, userTok, roleTok, channelTok, linkTok]

/-- First matcher in the list that succeeds on `s`. -/
def firstSome : List (Str → Option (RawTok × Str)) → Str → Option (RawTok × Str)
  | [], _ => none
  | f :: fs, s =>
    match f s with
    | some x => some x
    | none => firstSome fs s

/-- The inline pass (`parseInlineMarkdown`, client.tsx lines 239-393) as a
fuel-indexed recursion: one unit of fuel per loop iteration and per recursive
re-parse; `none` models a non-terminating loop. -/
def parseInlineF : Nat → Str → Option (List Inline)
  | 0, _ => none
  | _ + 1, [] => some []
  | fuel + 1, c :: cs =>
    match tokStep (c :: cs) with
    | some (.emojiT a n i, r) =>
      (parseInlineF fuel r).map (fun tl => .emoji a n i :: tl)
    | some (.boldT inner, r) =>
      match parseInlineF fuel inner, parseInlineF fuel r with
      | some ins, some tl => some (.bold ins :: tl)
      | _, _ => none
    | some (.underlineT inner, r) =>
      match parseInlineF fuel inner, parseInlineF fuel r with
      | some ins, some tl => some (.underline ins :: tl)
      | _, _ => none
    | some (.italicT inner, r) =>
      match parseInlineF fuel inner, parseInlineF fuel r with
      | some ins, some tl => some (.italic ins :: tl)
      | _, _ => none
    | some (.strikeT inner, r) =>
      match parseInlineF fuel inner, parseInlineF fuel r with
      | some ins, some tl => some (.strike ins :: tl)
      | _, _ => none
    | some (.codeT v, r) =>
      (parseInlineF fuel r).map (fun tl => .code v :: tl)
    | some (.spoilerT inner, r) =>
      match parseInlineF fuel inner, parseInlineF fuel r with
      | some ins, some tl => some (.spoiler ins :: tl)
      | _, _ => none
    | some (.userT i, r) =>
      (parseInlineF fuel r).map (fun tl => .userMention i :: tl)
    | some (.roleT i, r) =>
      (parseInlineF fuel r).map (fun tl => .roleMention i :: tl)
    | some (.channelT i, r) =>
      (parseInlineF fuel r).map (fun tl => .channelMention i :: tl)
    | some (.linkT l u, r) =>
      (parseInlineF fuel r).map (fun tl => .link l u :: tl)
    | none =>
      (parseInlineF fuel cs).map (fun tl => .text c :: tl)

/-- `parseInlineMarkdown` with the fuel the totality proof shows sufficient. -/
def parseInlineTop (s : Str) : Option (List Inline) :=
  parseInlineF (s.length + 1) s

/-! ### Block AST and the block pass -/

/-- One block node pushed to `result` by `parseDiscordMarkdown`. -/
inductive Block where
  | codeBlock (lang : Str) (value : Str)
  | heading (level : Nat) (children : List Inline)
  | blockquote (lines : List (List Inline))
  | listItem (indent : Nat) (children : List Inline)
  | blankLine
  | paragraph (children : List Inline)

/-- `line.trim().startsWith('```')` (client.tsx line 155). -/
def fenceLine (l : Str) : Bool := startsWith (strLit "```") (trim l)

/-- `line.trim().slice(3).trim()` (client.tsx line 156): the language tag of
an opening fence line. -/
def codeFenceLang (l : Str) : Str := trim ((trim l).drop 3)

/-- Regex `^(#{1,3})\s+(.+)$` (client.tsx line 178): up to three hashes, at
least one whitespace character, then a non-empty title running to the end of
the line.  When everything after the hashes is whitespace, the greedy `\s+`
backtracks one character so that `(.+)` captures the final whitespace
character; with a single whitespace character there is nothing left to
capture and the match fails. -/
def headMatch (l : Str) : Option (Nat × Str) :=
  let hashes := l.takeWhile (fun c => c = '#')
  let rest := l.dropWhile (fun c => c = '#')
  if 1 ≤ hashes.length ∧ hashes.length ≤ 3 then
    match rest.takeWhile isWsChar, rest.dropWhile isWsChar with
    | [], _ => none
    | ws, [] =>
      if 2 ≤ ws.length then some (hashes.length, ws.drop (ws.length - 1))
      else none
    | _, rest2 => some (hashes.length, rest2)
  else none

/-- `line.startsWith('> ')` (client.tsx line 195). -/
def quoteLine (l : Str) : Bool := startsWith (strLit "> ") l

/-- The list-marker part `([-*]|\d+\.)` of the list regex:
returns the text after the marker when one is present. -/
def markerSplit : Str → Option Str
  | '-' :: r => some r
  | '*' :: r => some r
  | s =>
    match s.dropWhile isDigitChar with
    | '.' :: r2 => if s.takeWhile isDigitChar ≠ [] then some r2 else none
    | _ => none

/-- Regex `^(\s*)([-*]|\d+\.)\s+(.+)$` (client.tsx line 213): leading
whitespace (its length is the indent), a list marker, at least one
whitespace character, then a non-empty item text to end of line (with the
same `\s+(.+)$` backtracking as for headings). -/
def listMatch (l : Str) : Option (Nat × Str) :=
  let ind := l.takeWhile isWsChar
  let rest := l.dropWhile isWsChar
  match markerSplit rest with
  | none => none
  | some rest1 =>
    match rest1.takeWhile isWsChar, rest1.dropWhile isWsChar with
    | [], _ => none
    | ws, [] =>
      if 2 ≤ ws.length then some (ind.length, ws.drop (ws.length - 1))
      else none
    | _, rest2 => some (ind.length, rest2)

/-- Inline-parse each line of a blockquote. -/
def parseLines : List Str → Option (List (List Inline))
  | [] => some []
  | l :: ls =>
    match parseInlineTop l, parseLines ls with
    | some ns, some rest => some (ns :: rest)
    | _, _ => none

/-- The block pass (`parseDiscordMarkdown`, client.tsx lines 150-234) as a
fuel-indexed recursion over the remaining lines: one unit of fuel per
iteration of the outer `while`; `none` models a non-terminating loop. -/
def parseBlocksF : Nat → List Str → Option (List Block)
  | 0, _ => none
  | _ + 1, [] => some []
  | fuel + 1, l :: ls =>
    if fenceLine l then
      match parseBlocksF fuel ((ls.dropWhile (fun x => ¬ fenceLine x)).drop 1) with
      | some tail =>
        some (.codeBlock (codeFenceLang l)
                (codeAccum [] (ls.takeWhile (fun x => ¬ fenceLine x))) :: tail)
      | none => none
    else
      match headMatch l with
      | some (lvl, title) =>
        match parseInlineTop title, parseBlocksF fuel ls with
        | some ns, some tail => some (.heading lvl ns :: tail)
        | _, _ => none
      | none =>
        if quoteLine l then
          match parseLines (l.drop 2 :: (ls.takeWhile quoteLine).map (·.drop 2)),
              parseBlocksF fuel (ls.dropWhile quoteLine) with
          | some qs, some tail => some (.blockquote qs :: tail)
          | _, _ => none
        else
          match listMatch l with
          | some (ind, content) =>
            match parseInlineTop content, parseBlocksF fuel ls with
            | some ns, some tail => some (.listItem ind ns :: tail)
            | _, _ => none
          | none =>
            if trim l = [] then
              match parseBlocksF fuel ls with
              | some tail => some (.blankLine :: tail)
              | none => none
            else
              match parseInlineTop l, parseBlocksF fuel ls with
              | some ns, some tail => some (.paragraph ns :: tail)
              | _, _ => none

/-- `parseDiscordMarkdown` (client.tsx lines 140-237): on a falsy (empty)
input return immediately, otherwise decode entities, split into lines and
run the block pass with the fuel the totality proof shows sufficient. -/
def parseDiscordMarkdown (s : Str) : Option (List Block) :=
  match s with
  | [] => some []
  | _ =>
    let lines := splitLines (decodeHtmlEntities s)
    parseBlocksF (lines.length + 1) lines

/-! ### Block-type classification (for the detection-order claim) -/

/-- The block type a line is dispatched to. -/
inductive BlockKind where
  | fence
  | heading
  | quote
  | listItem
  | blank
  | para
deriving DecidableEq

/-- The dispatch made by the body of the block-pass loop, written as the
source's if/else chain in source order. -/
def classifyLine (l : Str) : BlockKind :=
  if fenceLine l then .fence
  else
    match headMatch l with
    | some _ => .heading
    | none =>
      if quoteLine l then .quote
      else
        match listMatch l with
        | some _ => .listItem
        | none => if trim l = [] then .blank else .para

/-- The spec's ordered list of block detectors: code fence, heading,
blockquote, list item, blank. -/
def blockDetectors : List ((Str → Bool) × BlockKind) :=
  [(fenceLine, .fence),
   (fun l => (headMatch l).isSome, .heading),
   (quoteLine, .quote),
   (fun l => (listMatch l).isSome, .listItem),
   (fun l => trim l = [], .blank)]

/-- First detector in the list that holds; paragraph when none does. -/
def firstKind : List ((Str → Bool) × BlockKind) → Str → BlockKind
  | [], _ => .para
  | (p, k) :: rest, l => if p l then k else firstKind rest l

/-- The block type of a produced block node. -/
def kindOfBlock : Block → BlockKind
  | .codeBlock _ _ => .fence
  | .heading _ _ => .heading
  | .blockquote _ => .quote
  | .listItem _ _ => .listItem
  | .blankLine => .blank
  | .paragraph _ => .para

/-! ### The API proxy (`handleDiscordRequest`, route.ts lines 5-64) -/

/-- HTTP verbs the route file exports handlers for (plus HEAD, which the
body-forwarding condition mentions). -/
inductive Method where
  | GET
  | POST
  | PATCH
  | PUT
  | DELETE
  | HEAD
deriving DecidableEq

/-- An upstream JSON value, abstracted as its serialized text. -/
abbrev Json := Str

/-- The inbound request as the handler reads it: the catch-all path
segments, the query parameters in iteration order, the `authorization`
header (`none` when absent) and `await request.text()`. -/
structure ProxyRequest where
  method : Method
  path : List Str
  query : List (Str × Str)
  authorization : Option Str
  bodyText : Str

/-- The URL passed to `fetch`: `DISCORD_API_BASE/path.join('/')` plus the
appended query parameters. -/
structure UrlM where
  pathPart : Str
  queryParams : List (Str × Str)
deriving DecidableEq

/-- The `RequestInit` options passed to `fetch`. -/
structure FetchOptions where
  method : Method
  authorization : Str
  contentType : Str
  body : Option Str
deriving DecidableEq

/-- Outcome of the upstream `fetch` plus `response.json()`:
`success status jsonBody` is a resolved response (`jsonBody = none` when
`response.json()` would reject because the body is not valid JSON), and
`failure` is a rejected `fetch` (network fault). -/
inductive Upstream where
  | success (status : Nat) (jsonBody : Option Json)
  | failure

/-- A response body produced by `NextResponse.json`. -/
inductive RespBody where
  | upstreamData (j : Json)
  | errObj (msg : Str)
deriving DecidableEq

/-- The handler's response: a JSON response with a status, or the empty
`new NextResponse(null, { status: 204 })`. -/
inductive ProxyResponse where
  | jsonRes (body : RespBody) (status : Nat)
  | emptyRes (status : Nat)
deriving DecidableEq

/-- What one invocation of the handler did: the returned response, the
upstream fetches it made (in order), and whether `console.error` ran. -/
structure HandlerResult where
  response : ProxyResponse
  calls : List (UrlM × FetchOptions)
  loggedError : Bool
deriving DecidableEq

/-- `{ error: 'Authorization header required' }` with status 401. -/
def authErrorBody : RespBody := .errObj (strLit "Authorization header required")

/-- `{ error: 'Internal server error' }` with status 500. -/
def internalErrorBody : RespBody := .errObj (strLit "Internal server error")

/-- `https://discord.com/api/v10` (route.ts line 3). -/
def discordApiBase : Str := strLit "https://discord.com/api/v10"

/-- JS truthiness of the `authorization` header value: absent or empty is
falsy. -/
def falsyAuth : Option Str → Bool
  | none => true
  | some a => a.isEmpty

/-- The URL built at route.ts lines 18-25: query parameters are appended
only for `GET`. -/
def buildUrl (req : ProxyRequest) : UrlM :=
  { pathPart := discordApiBase ++ '/' :: joinSlash req.path,
    queryParams := if req.method = .GET then req.query else [] }

/-- The `RequestInit` built at route.ts lines 27-42: `Authorization` and
`Content-Type: application/json` headers, and the body text only for verbs
other than `GET`, `HEAD` and `DELETE` and only when it is truthy
(non-empty). -/
def buildOptions (req : ProxyRequest) (auth : Str) : FetchOptions :=
  { method := req.method,
    authorization := auth,
    contentType := strLit "application/json",
    body :=
      if req.method ≠ .GET ∧ req.method ≠ .HEAD ∧ req.method ≠ .DELETE ∧
          req.bodyText ≠ [] then
        some req.bodyText
      else none }

/-- `handleDiscordRequest` (route.ts lines 5-64), with the upstream
modelled as a function from the fetched URL and options to an `Upstream`
outcome.  The `try`/`catch` around the upstream interaction maps both a
rejected `fetch` and a non-JSON body to the logged 500 response. -/
def handleDiscordRequest (req : ProxyRequest)
    (upstream : UrlM → FetchOptions → Upstream) : HandlerResult :=
  if falsyAuth req.authorization then
    { response := .jsonRes authErrorBody 401, calls := [], loggedError := false }
  else
    let auth := (req.authorization).getD []
    let url := buildUrl req
    let opts := buildOptions req auth
    match upstream url opts with
    | .failure =>
      { response := .jsonRes internalErrorBody 500, calls := [(url, opts)],
        loggedError := true }
    | .success status jsonBody =>
      if status = 204 then
        { response := .emptyRes 204, calls := [(url, opts)], loggedError := false }
      else
        match jsonBody with
        | none =>
          { response := .jsonRes internalErrorBody 500, calls := [(url, opts)],
            loggedError := true }
        | some data =>
          if 200 ≤ status ∧ status ≤ 299 then
            { response := .jsonRes (.upstreamData data) 200,
              calls := [(url, opts)], loggedError := false }
          else
            { response := .jsonRes (.upstreamData data) status,
              calls := [(url, opts)], loggedError := false }

/-! ### Length facts about the matchers -/

theorem takeWhile_dropWhile_length {α : Type} (p : α → Bool) (l : List α) :
    (l.takeWhile p).length + (l.dropWhile p).length = l.length := by
  conv_rhs => rw [← List.takeWhile_append_dropWhile (p := p) (l := l)]
  rw [List.length_append]

theorem dropWhile_cons_length {p : Char → Bool} {l r : Str} {c : Char}
    (h : l.dropWhile p = c :: r) :
    (l.takeWhile p).length + r.length + 1 = l.length := by
  have h1 := takeWhile_dropWhile_length p l
  rw [h] at h1
  simp only [List.length_cons] at h1
  omega

theorem dropWhile_cons_cons_length {p : Char → Bool} {l r : Str} {c d : Char}
    (h : l.dropWhile p = c :: d :: r) :
    (l.takeWhile p).length + r.length + 2 = l.length := by
  have h1 := takeWhile_dropWhile_length p l
  rw [h] at h1
  simp only [List.length_cons] at h1
  omega

theorem emojiTail_len {a0 : Bool} {r0 : Str} {a : Bool} {n i r : Str}
    (h : matchEmoji.emojiTail a0 r0 = some (a, n, i, r)) :
    r.length < r0.length := by
  unfold matchEmoji.emojiTail at h
  split at h
  · rename_i r2 heq
    split at h
    · rename_i r3 heq2
      split at h
      · have h1 := dropWhile_cons_length heq
        have h2 := dropWhile_cons_length heq2
        simp only [Option.some.injEq, Prod.mk.injEq] at h
        obtain ⟨-, -, -, rfl⟩ := h
        omega
      · exact absurd h (by simp)
    · exact absurd h (by simp)
  · exact absurd h (by simp)

theorem matchEmoji_len {s : Str} {a : Bool} {n i r : Str}
    (h : matchEmoji s = some (a, n, i, r)) : r.length < s.length := by
  unfold matchEmoji at h
  split at h
  · have := emojiTail_len h
    simp only [List.length_cons]
    omega
  · have := emojiTail_len h
    simp only [List.length_cons]
    omega
  · exact absurd h (by simp)

theorem matchDelim2_len {d : Char} {s inner r : Str}
    (h : matchDelim2 d s = some (inner, r)) :
    inner.length + r.length + 4 = s.length := by
  unfold matchDelim2 at h
  split at h
  · rename_i c1 c2 rest
    split at h
    · split at h
      · rename_i r3 heq
        split at h
        · have h1 := dropWhile_cons_cons_length heq
          simp only [Option.some.injEq, Prod.mk.injEq] at h
          obtain ⟨rfl, rfl⟩ := h
          simp only [List.length_cons]
          omega
        · exact absurd h (by simp)
      · exact absurd h (by simp)
    · exact absurd h (by simp)
  · exact absurd h (by simp)

theorem matchDelim1_len {d : Char} {s inner r : Str}
    (h : matchDelim1 d s = some (inner, r)) :
    inner.length + r.length + 2 = s.length := by
  unfold matchDelim1 at h
  split at h
  · rename_i c rest
    split at h
    · split at h
      · rename_i r2 heq
        split at h
        · have h1 := dropWhile_cons_length heq
          simp only [Option.some.injEq, Prod.mk.injEq] at h
          obtain ⟨rfl, rfl⟩ := h
          simp only [List.length_cons]
          omega
        · exact absurd h (by simp)
      · exact absurd h (by simp)
    · exact absurd h (by simp)
  · exact absurd h (by simp)

theorem matchItalic_len {s inner r : Str}
    (h : matchItalic s = some (inner, r)) :
    inner.length + r.length + 2 = s.length := by
  unfold matchItalic at h
  split at h
  · rename_i d rest
    split at h
    · split at h
      · rename_i r2 heq
        split at h
        · have h1 := dropWhile_cons_length heq
          simp only [Option.some.injEq, Prod.mk.injEq] at h
          obtain ⟨rfl, rfl⟩ := h
          simp only [List.length_cons]
          omega
        · exact absurd h (by simp)
      · exact absurd h (by simp)
    · exact absurd h (by simp)
  · exact absurd h (by simp)

theorem digitsThenGt_len {r0 i r : Str}
    (h : digitsThenGt r0 = some (i, r)) : r.length < r0.length := by
  unfold digitsThenGt at h
  split at h
  · rename_i r3 heq
    split at h
    · simp only [Option.some.injEq, Prod.mk.injEq] at h
      obtain ⟨-, rfl⟩ := h
      have h1 := dropWhile_cons_length heq
      omega
    · exact absurd h (by simp)
  · exact absurd h (by simp)

theorem matchUser_len {s i r : Str}
    (h : matchUser s = some (i, r)) : r.length < s.length := by
  unfold matchUser at h
  split at h
  · have := digitsThenGt_len h
    simp only [List.length_cons]
    omega
  · have := digitsThenGt_len h
    simp only [List.length_cons]
    omega
  · exact absurd h (by simp)

theorem matchRole_len {s i r : Str}
    (h : matchRole s = some (i, r)) : r.length < s.length := by
  unfold matchRole at h
  split at h
  · have := digitsThenGt_len h
    simp only [List.length_cons]
    omega
  · exact absurd h (by simp)

theorem matchChannel_len {s i r : Str}
    (h : matchChannel s = some (i, r)) : r.length < s.length := by
  unfold matchChannel at h
  split at h
  · have := digitsThenGt_len h
    simp only [List.length_cons]
    omega
  · exact absurd h (by simp)

theorem matchLink_len {s lab u r : Str}
    (h : matchLink s = some (lab, u, r)) : r.length < s.length := by
  unfold matchLink at h
  split at h
  · rename_i rest
    split at h
    · rename_i r2 heq
      split at h
      · rename_i r3 heq2
        split at h
        · simp only [Option.some.injEq, Prod.mk.injEq] at h
          obtain ⟨-, -, rfl⟩ := h
          have h1 := dropWhile_cons_cons_length heq
          have h2 := dropWhile_cons_length heq2
          simp only [List.length_cons]
          omega
        · exact absurd h (by simp)
      · exact absurd h (by simp)
    · exact absurd h (by simp)
  · exact absurd h (by simp)

/-- The captured group that gets recursively re-parsed, when the token has
one. -/
def rawInner : RawTok → Option Str
  | .boldT i => some i
  | .underlineT i => some i
  | .italicT i => some i
  | .strikeT i => some i
  | .spoilerT i => some i
  | _ => none

theorem emojiTok_len {s : Str} {t : RawTok} {r : Str}
    (h : emojiTok s = some (t, r)) :
    r.length < s.length ∧
      ∀ inner, rawInner t = some inner → inner.length < s.length := by
  unfold emojiTok at h
  split at h
  · rename_i a n i r' heq
    simp only [Option.some.injEq, Prod.mk.injEq] at h
    obtain ⟨rfl, rfl⟩ := h
    exact ⟨matchEmoji_len heq, by intro inner hi; simp [rawInner] at hi⟩
  · exact absurd h (by simp)

theorem boldTok_len {s : Str} {t : RawTok} {r : Str}
    (h : boldTok s = some (t, r)) :
    r.length < s.length ∧
      ∀ inner, rawInner t = some inner → inner.length < s.length := by
  unfold boldTok at h
  split at h
  · rename_i inner0 r' heq
    simp only [Option.some.injEq, Prod.mk.injEq] at h
    obtain ⟨rfl, rfl⟩ := h
    have := matchDelim2_len heq
    refine ⟨by omega, ?_⟩
    intro inner hi
    simp only [rawInner, Option.some.injEq] at hi
    subst hi
    omega
  · exact absurd h (by simp)

theorem underlineTok_len {s : Str} {t : RawTok} {r : Str}
    (h : underlineTok s = some (t, r)) :
    r.length < s.length ∧
      ∀ inner, rawInner t = some inner → inner.length < s.length := by
  unfold underlineTok at h
  split at h
  · rename_i inner0 r' heq
    simp only [Option.some.injEq, Prod.mk.injEq] at h
    obtain ⟨rfl, rfl⟩ := h
    have := matchDelim2_len heq
    refine ⟨by omega, ?_⟩
    intro inner hi
    simp only [rawInner, Option.some.injEq] at hi
    subst hi
    omega
  · exact absurd h (by simp)

theorem italicTok_len {s : Str} {t : RawTok} {r : Str}
    (h : italicTok s = some (t, r)) :
    r.length < s.length ∧
      ∀ inner, rawInner t = some inner → inner.length < s.length := by
  unfold italicTok at h
  split at h
  · rename_i inner0 r' heq
    simp only [Option.some.injEq, Prod.mk.injEq] at h
    obtain ⟨rfl, rfl⟩ := h
    have := matchItalic_len heq
    refine ⟨by omega, ?_⟩
    intro inner hi
    simp only [rawInner, Option.some.injEq] at hi
    subst hi
    omega
  · exact absurd h (by simp)

theorem strikeTok_len {s : Str} {t : RawTok} {r : Str}
    (h : strikeTok s = some (t, r)) :
    r.length < s.length ∧
      ∀ inner, rawInner t = some inner → inner.length < s.length := by
  unfold strikeTok at h
  split at h
  · rename_i inner0 r' heq
    simp only [Option.some.injEq, Prod.mk.injEq] at h
    obtain ⟨rfl, rfl⟩ := h
    have := matchDelim2_len heq
    refine ⟨by omega, ?_⟩
    intro inner hi
    simp only [rawInner, Option.some.injEq] at hi
    subst hi
    omega
  · exact absurd h (by simp)

theorem codeTok_len {s : Str} {t : RawTok} {r : Str}
    (h : codeTok s = some (t, r)) :
    r.length < s.length ∧
      ∀ inner, rawInner t = some inner → inner.length < s.length := by
  unfold codeTok at h
  split at h
  · rename_i v r' heq
    simp only [Option.some.injEq, Prod.mk.injEq] at h
    obtain ⟨rfl, rfl⟩ := h
    have := matchDelim1_len heq
    exact ⟨by omega, by intro inner hi; simp [rawInner] at hi⟩
  · exact absurd h (by simp)

theorem spoilerTok_len {s : Str} {t : RawTok} {r : Str}
    (h : spoilerTok s = some (t, r)) :
    r.length < s.length ∧
      ∀ inner, rawInner t = some inner → inner.length < s.length := by
  unfold spoilerTok at h
  split at h
  · rename_i inner0 r' heq
    simp only [Option.some.injEq, Prod.mk.injEq] at h
    obtain ⟨rfl, rfl⟩ := h
    have := matchDelim2_len heq
    refine ⟨by omega, ?_⟩
    intro inner hi
    simp only [rawInner, Option.some.injEq] at hi
    subst hi
    omega
  · exact absurd h (by simp)

theorem userTok_len {s : Str} {t : RawTok} {r : Str}
    (h : userTok s = some (t, r)) :
    r.length < s.length ∧
      ∀ inner, rawInner t = some inner → inner.length < s.length := by
  unfold userTok at h
  split at h
  · rename_i i r' heq
    simp only [Option.some.injEq, Prod.mk.injEq] at h
    obtain ⟨rfl, rfl⟩ := h
    exact ⟨matchUser_len heq, by intro inner hi; simp [rawInner] at hi⟩
  · exact absurd h (by simp)

theorem roleTok_len {s : Str} {t : RawTok} {r : Str}
    (h : roleTok s = some (t, r)) :
    r.length < s.length ∧
      ∀ inner, rawInner t = some inner → inner.length < s.length := by
  unfold roleTok at h
  split at h
  · rename_i i r' heq
    simp only [Option.some.injEq, Prod.mk.injEq] at h
    obtain ⟨rfl, rfl⟩ := h
    exact ⟨matchRole_len heq, by intro inner hi; simp [rawInner] at hi⟩
  · exact absurd h (by simp)

theorem channelTok_len {s : Str} {t : RawTok} {r : Str}
    (h : channelTok s = some (t, r)) :
    r.length < s.length ∧
      ∀ inner, rawInner t = some inner → inner.length < s.length := by
  unfold channelTok at h
  split at h
  · rename_i i r' heq
    simp only [Option.some.injEq, Prod.mk.injEq] at h
    obtain ⟨rfl, rfl⟩ := h
    exact ⟨matchChannel_len heq, by intro inner hi; simp [rawInner] at hi⟩
  · exact absurd h (by simp)

theorem linkTok_len {s : Str} {t : RawTok} {r : Str}
    (h : linkTok s = some (t, r)) :
    r.length < s.length ∧
      ∀ inner, rawInner t = some inner → inner.length < s.length := by
  unfold linkTok at h
  split at h
  · rename_i l u r' heq
    simp only [Option.some.injEq, Prod.mk.injEq] at h
    obtain ⟨rfl, rfl⟩ := h
    exact ⟨matchLink_len heq, by intro inner hi; simp [rawInner] at hi⟩
  · exact absurd h (by simp)

theorem tokStep_len {s : Str} {t : RawTok} {r : Str}
    (h : tokStep s = some (t, r)) :
    r.length < s.length ∧
      ∀ inner, rawInner t = some inner → inner.length < s.length := by
  unfold tokStep at h
  repeat' split at h
  all_goals
    first
    | exact Option.noConfusion h
    | (rename_i x heq
       injection h with hx
       subst hx
       first
       | exact emojiTok_len heq
       | exact boldTok_len heq
       | exact underlineTok_len heq
       | exact italicTok_len heq
       | exact strikeTok_len heq
       | exact codeTok_len heq
       | exact spoilerTok_len heq
       | exact userTok_len heq
       | exact roleTok_len heq
       | exact channelTok_len heq
       | exact linkTok_len heq)

/-! ### Totality of the inline pass -/

theorem parseInlineF_total :
    ∀ (fuel : Nat) (s : Str), s.length < fuel →
      ∃ ns, parseInlineF fuel s = some ns := by
  intro fuel
  induction fuel with
  | zero => intro s h; omega
  | succ fuel ih =>
    intro s h
    match s with
    | [] => exact ⟨[], rfl⟩
    | c :: cs =>
      have hs : (c :: cs).length ≤ fuel := Nat.lt_succ_iff.mp h
      have hcs : cs.length < fuel := by
        simp only [List.length_cons] at hs
        omega
      cases htok : tokStep (c :: cs) with
      | none =>
        obtain ⟨ns, hns⟩ := ih cs hcs
        exact ⟨.text c :: ns, by simp [parseInlineF, htok, hns]⟩
      | some x =>
        obtain ⟨t, r⟩ := x
        obtain ⟨hr, hinner⟩ := tokStep_len htok
        have hrf : r.length < fuel := by omega
        obtain ⟨tl, htl⟩ := ih r hrf
        cases t with
        | emojiT a n i =>
          exact ⟨.emoji a n i :: tl, by simp [parseInlineF, htok, htl]⟩
        | boldT inner =>
          have hin : inner.length < fuel := by
            have := hinner inner (by simp [rawInner])
            omega
          obtain ⟨ins, hins⟩ := ih inner hin
          exact ⟨.bold ins :: tl, by simp [parseInlineF, htok, htl, hins]⟩
        | underlineT inner =>
          have hin : inner.length < fuel := by
            have := hinner inner (by simp [rawInner])
            omega
          obtain ⟨ins, hins⟩ := ih inner hin
          exact ⟨.underline ins :: tl, by simp [parseInlineF, htok, htl, hins]⟩
        | italicT inner =>
          have hin : inner.length < fuel := by
            have := hinner inner (by simp [rawInner])
            omega
          obtain ⟨ins, hins⟩ := ih inner hin
          exact ⟨.italic ins :: tl, by simp [parseInlineF, htok, htl, hins]⟩
        | strikeT inner =>
          have hin : inner.length < fuel := by
            have := hinner inner (by simp [rawInner])
            omega
          obtain ⟨ins, hins⟩ := ih inner hin
          exact ⟨.strike ins :: tl, by simp [parseInlineF, htok, htl, hins]⟩
        | codeT v => exact ⟨.code v :: tl, by simp [parseInlineF, htok, htl]⟩
        | spoilerT inner =>
          have hin : inner.length < fuel := by
            have := hinner inner (by simp [rawInner])
            omega
          obtain ⟨ins, hins⟩ := ih inner hin
          exact ⟨.spoiler ins :: tl, by simp [parseInlineF, htok, htl, hins]⟩
        | userT i =>
          exact ⟨.userMention i :: tl, by simp [parseInlineF, htok, htl]⟩
        | roleT i =>
          exact ⟨.roleMention i :: tl, by simp [parseInlineF, htok, htl]⟩
        | channelT i =>
          exact ⟨.channelMention i :: tl, by simp [parseInlineF, htok, htl]⟩
        | linkT l u =>
          exact ⟨.link l u :: tl, by simp [parseInlineF, htok, htl]⟩

theorem parseInlineTop_total (s : Str) : ∃ ns, parseInlineTop s = some ns :=
  parseInlineF_total (s.length + 1) s (Nat.lt_succ_self _)

theorem parseLines_total (ls : List Str) : ∃ qs, parseLines ls = some qs := by
  induction ls with
  | nil => exact ⟨[], rfl⟩
  | cons l rest ih =>
    obtain ⟨ns, hns⟩ := parseInlineTop_total l
    obtain ⟨qs, hqs⟩ := ih
    exact ⟨ns :: qs, by simp [parseLines, hns, hqs]⟩

/-! ### Totality of the block pass -/

theorem parseBlocksF_total :
    ∀ (fuel : Nat) (ls : List Str), ls.length < fuel →
      ∃ bs, parseBlocksF fuel ls = some bs := by
  intro fuel
  induction fuel with
  | zero => intro ls h; omega
  | succ fuel ih =>
    intro ls h
    match ls with
    | [] => exact ⟨[], rfl⟩
    | l :: rest =>
      have hs : (l :: rest).length ≤ fuel := Nat.lt_succ_iff.mp h
      have hrest : rest.length < fuel := by
        simp only [List.length_cons] at hs
        omega
      by_cases hf : fenceLine l
      · have h1 := takeWhile_dropWhile_length (fun x => !fenceLine x) rest
        have h2 : ((rest.dropWhile (fun x => !fenceLine x)).drop 1).length <
            fuel := by
          rw [List.length_drop]
          omega
        obtain ⟨tail, htail⟩ := ih _ h2
        rw [List.drop_one] at htail
        exact ⟨.codeBlock (codeFenceLang l)
            (codeAccum [] (rest.takeWhile (fun x => !fenceLine x))) :: tail,
          by simp [parseBlocksF, hf, htail]⟩
      · cases hh : headMatch l with
        | some p =>
          obtain ⟨lvl, title⟩ := p
          obtain ⟨ns, hns⟩ := parseInlineTop_total title
          obtain ⟨tail, htail⟩ := ih rest hrest
          exact ⟨.heading lvl ns :: tail,
            by simp [parseBlocksF, hf, hh, hns, htail]⟩
        | none =>
          by_cases hq : quoteLine l
          · have h1 := takeWhile_dropWhile_length quoteLine rest
            have h2 : (rest.dropWhile quoteLine).length < fuel := by omega
            obtain ⟨qs, hqs⟩ :=
              parseLines_total (l.drop 2 :: (rest.takeWhile quoteLine).map (·.drop 2))
            obtain ⟨tail, htail⟩ := ih _ h2
            exact ⟨.blockquote qs :: tail,
              by simp [parseBlocksF, hf, hh, hq, hqs, htail]⟩
          · cases hl : listMatch l with
            | some p =>
              obtain ⟨ind, content⟩ := p
              obtain ⟨ns, hns⟩ := parseInlineTop_total content
              obtain ⟨tail, htail⟩ := ih rest hrest
              exact ⟨.listItem ind ns :: tail,
                by simp [parseBlocksF, hf, hh, hq, hl, hns, htail]⟩
            | none =>
              obtain ⟨tail, htail⟩ := ih rest hrest
              by_cases hb : trim l = []
              · exact ⟨.blankLine :: tail,
                  by simp [parseBlocksF, hf, hh, hq, hl, hb, htail]⟩
              · obtain ⟨ns, hns⟩ := parseInlineTop_total l
                exact ⟨.paragraph ns :: tail,
                  by simp [parseBlocksF, hf, hh, hq, hl, hb, hns, htail]⟩

/-! ### Priority-order refinements -/

theorem tokStep_eq_firstSome (s : Str) : tokStep s = firstSome specMatchers s := rfl

theorem classifyLine_eq_firstKind (l : Str) :
    classifyLine l = firstKind blockDetectors l := by
  unfold classifyLine blockDetectors
  simp only [firstKind]
  by_cases hf : fenceLine l
  · simp [hf]
  · cases hh : headMatch l with
    | some p => simp [hf, hh]
    | none =>
      by_cases hq : quoteLine l
      · simp [hf, hh, hq]
      · cases hl : listMatch l with
        | some p => simp [hf, hh, hq, hl]
        | none =>
          by_cases hb : trim l = [] <;> simp [hf, hh, hq, hl, hb]

/-! ### Shape of one block-pass step -/

theorem parseBlocksF_head_kind {fuel : Nat} {l : Str} {ls : List Str}
    {bs : List Block} (h : parseBlocksF (fuel + 1) (l :: ls) = some bs) :
    ∃ b tail, bs = b :: tail ∧ kindOfBlock b = classifyLine l := by
  unfold parseBlocksF at h
  repeat' split at h
  all_goals
    first
    | exact Option.noConfusion h
    | (injection h with h'
       subst h'
       exact ⟨_, _, rfl, by simp_all [kindOfBlock, classifyLine]⟩)

theorem dropWhile_append_singleton {α : Type} {p : α → Bool} {c : α}
    (hc : p c = false) (xs : List α) :
    (xs ++ [c]).dropWhile p = xs.dropWhile p ++ [c] := by
  induction xs with
  | nil => simp [List.dropWhile, hc]
  | cons x xs ih =>
    by_cases hx : p x <;> simp [List.dropWhile, hx, ih]

theorem trim_cons_not_ws {c : Char} (hc : isWsChar c = false) (l : Str) :
    trim (c :: l) = c :: (l.reverse.dropWhile isWsChar).reverse := by
  unfold trim
  rw [List.dropWhile_cons_of_neg (by simp [hc])]
  rw [List.reverse_cons, dropWhile_append_singleton hc, List.reverse_append]
  rfl

theorem quoteLine_shape {l : Str} (hq : quoteLine l = true) :
    ∃ r, l = '>' :: ' ' :: r := by
  have he : strLit "> " = ['>', ' '] := rfl
  unfold quoteLine at hq
  rw [he] at hq
  match l with
  | [] => simp [startsWith] at hq
  | [c] => simp [startsWith] at hq
  | c1 :: c2 :: r =>
    simp only [startsWith, Bool.and_eq_true, decide_eq_true_eq, and_true] at hq
    obtain ⟨h1, h2⟩ := hq
    exact ⟨r, by rw [← h1, ← h2]⟩

theorem fenceLine_false_of_quote {l : Str} (hq : quoteLine l = true) :
    fenceLine l = false := by
  obtain ⟨r, rfl⟩ := quoteLine_shape hq
  unfold fenceLine
  rw [trim_cons_not_ws (by simp [isWsChar])]
  rfl

theorem headMatch_none_of_quote {l : Str} (hq : quoteLine l = true) :
    headMatch l = none := by
  obtain ⟨r, rfl⟩ := quoteLine_shape hq
  rfl

theorem blockquote_step (fuel : Nat) (l : Str) (ls : List Str)
    (hq : quoteLine l = true) (hfuel : ls.length < fuel) :
    ∃ qs tail,
      parseLines (l.drop 2 :: (ls.takeWhile quoteLine).map (·.drop 2)) = some qs ∧
      parseBlocksF fuel (ls.dropWhile quoteLine) = some tail ∧
      parseBlocksF (fuel + 1) (l :: ls) = some (.blockquote qs :: tail) := by
  obtain ⟨qs, hqs⟩ :=
    parseLines_total (l.drop 2 :: (ls.takeWhile quoteLine).map (·.drop 2))
  have h1 := takeWhile_dropWhile_length quoteLine ls
  obtain ⟨tail, htail⟩ := parseBlocksF_total fuel (ls.dropWhile quoteLine) (by omega)
  refine ⟨qs, tail, hqs, htail, ?_⟩
  simp [parseBlocksF, fenceLine_false_of_quote hq, headMatch_none_of_quote hq,
    hq, hqs, htail]

theorem codefence_step (fuel : Nat) (l : Str) (ls : List Str)
    (hf : fenceLine l = true) (hfuel : ls.length < fuel) :
    ∃ tail,
      parseBlocksF fuel ((ls.dropWhile (fun x => !fenceLine x)).drop 1) = some tail ∧
      parseBlocksF (fuel + 1) (l :: ls) =
        some (.codeBlock (codeFenceLang l)
          (codeAccum [] (ls.takeWhile (fun x => !fenceLine x))) :: tail) := by
  have h1 := takeWhile_dropWhile_length (fun x => !fenceLine x) ls
  obtain ⟨tail, htail⟩ := parseBlocksF_total fuel
    ((ls.dropWhile (fun x => !fenceLine x)).drop 1)
    (by rw [List.length_drop]; omega)
  refine ⟨tail, htail, ?_⟩
  rw [List.drop_one] at htail
  simp [parseBlocksF, hf, htail]

/-! ### Claim theorems for the markdown renderer -/

/-- C1: for every input string (the empty string, only-backtick strings and
strings with unbalanced `**` delimiters included), `parseDiscordMarkdown`
terminates with a parse result: in the fuel model, the fuel
`lines.length + 1` always suffices and no input is rejected. -/
theorem parseDiscordMarkdown_total (s : Str) :
    ∃ bs, parseDiscordMarkdown s = some bs := by
  match s with
  | [] => exact ⟨[], rfl⟩
  | c :: cs =>
    obtain ⟨bs, hbs⟩ := parseBlocksF_total
      ((splitLines (decodeHtmlEntities (c :: cs))).length + 1)
      (splitLines (decodeHtmlEntities (c :: cs))) (Nat.lt_succ_self _)
    exact ⟨bs, hbs⟩

/-- C6: at every cursor position the inline pass tries the token matchers in
the fixed priority order custom-emoji, bold, underline, italic,
strikethrough, inline-code, spoiler, user-mention, role-mention,
channel-mention, link, takes the first that matches, and when none matches
consumes exactly one character as plain text. -/
theorem inline_priority_order :
    (∀ s, tokStep s = firstSome specMatchers s) ∧
    (∀ (fuel : Nat) (c : Char) (cs : Str), tokStep (c :: cs) = none →
      parseInlineF (fuel + 1) (c :: cs) =
        (parseInlineF fuel cs).map (fun tl => .text c :: tl)) :=
  ⟨tokStep_eq_firstSome, fun fuel c cs h => by simp [parseInlineF, h]⟩

/-- Witness for C6 at a concrete position where no matcher fires. -/
theorem inline_priority_order_witness :
    tokStep ['x'] = none ∧
    parseInlineF 1 ['x'] =
      (parseInlineF 0 []).map (fun tl => Inline.text 'x' :: tl) :=
  ⟨rfl, inline_priority_order.2 0 'x' [] rfl⟩

/-- C7: block-type detection is the fixed first-match order code fence,
heading, blockquote, list item, blank, paragraph, and the block node the
parser emits for a line has exactly the detected type. -/
theorem block_priority_order :
    (∀ l, classifyLine l = firstKind blockDetectors l) ∧
    (∀ (fuel : Nat) (l : Str) (ls : List Str) (bs : List Block),
      parseBlocksF (fuel + 1) (l :: ls) = some bs →
      ∃ b tail, bs = b :: tail ∧ kindOfBlock b = classifyLine l) :=
  ⟨classifyLine_eq_firstKind, fun _ _ _ _ h => parseBlocksF_head_kind h⟩

/-- Witness for C7 on a concrete one-line input. -/
theorem block_priority_order_witness :
    ∃ b tail, [Block.paragraph [Inline.text 'x']] = b :: tail ∧
      kindOfBlock b = classifyLine ['x'] :=
  block_priority_order.2 1 ['x'] [] [Block.paragraph [Inline.text 'x']] rfl

/-- C8: a `> `-prefixed line opens a blockquote that absorbs every
consecutive following `> `-prefixed line with the two-character prefix
stripped, ending at the first other line; and the spec example
`"> line1\n> line2\nplain"` parses to one two-line blockquote followed by
one paragraph. -/
theorem blockquote_absorbs (fuel : Nat) (l : Str) (ls : List Str)
    (hq : quoteLine l = true) (hfuel : ls.length < fuel) :
    (∃ qs tail,
      parseLines (l.drop 2 :: (ls.takeWhile quoteLine).map (·.drop 2)) = some qs ∧
      parseBlocksF fuel (ls.dropWhile quoteLine) = some tail ∧
      parseBlocksF (fuel + 1) (l :: ls) = some (.blockquote qs :: tail)) ∧
    parseDiscordMarkdown (strLit "> line1\n> line2\nplain") =
      some [.blockquote [(strLit "line1").map .text, (strLit "line2").map .text],
            .paragraph ((strLit "plain").map .text)] :=
  ⟨blockquote_step fuel l ls hq hfuel, rfl⟩

/-- Witness for C8 at a concrete quoted line. -/
theorem blockquote_absorbs_witness :
    (∃ qs tail,
      parseLines ((strLit "> a").drop 2 ::
        (([] : List Str).takeWhile quoteLine).map (·.drop 2)) = some qs ∧
      parseBlocksF 1 (([] : List Str).dropWhile quoteLine) = some tail ∧
      parseBlocksF 2 [strLit "> a"] = some (.blockquote qs :: tail)) ∧
    parseDiscordMarkdown (strLit "> line1\n> line2\nplain") =
      some [.blockquote [(strLit "line1").map .text, (strLit "line2").map .text],
            .paragraph ((strLit "plain").map .text)] :=
  blockquote_absorbs 1 (strLit "> a") [] rfl (by decide)

/-- C9 fails on the code: the inner text of `**bold**` is re-parsed into
one one-character text node per character, so the Bold node's children are
four text nodes, not the single node `Text("bold")`. -/
theorem bold_single_text_cex :
    parseInlineTop (strLit "**bold**") =
      some [.bold [.text 'b', .text 'o', .text 'l', .text 'd']] ∧
    ([Inline.text 'b', .text 'o', .text 'l', .text 'd'] : List Inline).length ≠ 1 :=
  ⟨rfl, by decide⟩

/-- C9 amended: parsing `**bold**` yields exactly one Bold node whose
children are the one-character text nodes spelling `bold`, and those
children are exactly the recursive inline re-parse of the captured group
`bold`. -/
theorem bold_char_nodes :
    parseInlineTop (strLit "**bold**") =
      some [.bold ((strLit "bold").map .text)] ∧
    parseInlineTop (strLit "bold") = some ((strLit "bold").map .text) :=
  ⟨rfl, rfl⟩

/-- C4 fails on the code: the language tag is captured even when the
remainder of the opening fence line has an embedded space —
`"```a b"` yields the tag `"a b"`. -/
theorem codefence_lang_space_cex :
    parseDiscordMarkdown (strLit "```a b\nx\n```") =
      some [.codeBlock (strLit "a b") (strLit "x")] ∧
    ' ' ∈ strLit "a b" :=
  ⟨rfl, by decide⟩

/-- C4 amended: a fence line opens a code block whose language tag is the
trimmed remainder of the opening line (captured unconditionally, embedded
spaces included); the block consumes following lines until the next fence
line, accumulating them with a newline separator added only once the
accumulated content is non-empty (so leading empty lines contribute
nothing), and when the input ends first all remaining lines are so
accumulated, with no error. -/
theorem codefence_block (fuel : Nat) (l : Str) (ls : List Str)
    (hf : fenceLine l = true) (hfuel : ls.length < fuel) :
    (∃ tail,
      parseBlocksF fuel ((ls.dropWhile (fun x => !fenceLine x)).drop 1) = some tail ∧
      parseBlocksF (fuel + 1) (l :: ls) =
        some (.codeBlock (codeFenceLang l)
          (codeAccum [] (ls.takeWhile (fun x => !fenceLine x))) :: tail)) ∧
    ((∀ x ∈ ls, fenceLine x = false) →
      parseBlocksF (fuel + 1) (l :: ls) =
        some [.codeBlock (codeFenceLang l) (codeAccum [] ls)]) := by
  refine ⟨codefence_step fuel l ls hf hfuel, ?_⟩
  intro hall
  obtain ⟨tail, htail, heq⟩ := codefence_step fuel l ls hf hfuel
  have htake : ls.takeWhile (fun x => !fenceLine x) = ls :=
    List.takeWhile_eq_self_iff.mpr (fun x hx => by simp [hall x hx])
  have hdrop : ls.dropWhile (fun x => !fenceLine x) = [] :=
    List.dropWhile_eq_nil_iff.mpr (fun x hx => by simp [hall x hx])
  rw [htake] at heq
  rw [hdrop] at htail
  simp only [List.drop_nil] at htail
  have hfuel1 : 0 < fuel := by omega
  have : parseBlocksF fuel [] = some [] := by
    match fuel, hfuel1 with
    | f + 1, _ => rfl
  rw [this] at htail
  injection htail with h'
  rw [heq, ← h']

/-- Witness for C4-amended on a concrete unterminated fence. -/
theorem codefence_block_witness :
    (∃ tail,
      parseBlocksF 2 (([strLit "a"].dropWhile (fun x => !fenceLine x)).drop 1) =
        some tail ∧
      parseBlocksF 3 [strLit "```", strLit "a"] =
        some (.codeBlock (codeFenceLang (strLit "```"))
          (codeAccum [] ([strLit "a"].takeWhile (fun x => !fenceLine x))) :: tail)) ∧
    ((∀ x ∈ [strLit "a"], fenceLine x = false) →
      parseBlocksF 3 [strLit "```", strLit "a"] =
        some [.codeBlock (codeFenceLang (strLit "```")) (codeAccum [] [strLit "a"])]) :=
  codefence_block 2 (strLit "```") [strLit "a"] rfl (by decide)

/-! ### Claim theorems for the API proxy -/

theorem handle_calls_single (req : ProxyRequest)
    (upstream : UrlM → FetchOptions → Upstream) (auth : Str)
    (hauth : req.authorization = some auth) (hne : auth ≠ []) :
    (handleDiscordRequest req upstream).calls =
      [(buildUrl req, buildOptions req auth)] := by
  have hf : falsyAuth req.authorization = false := by
    rw [hauth]
    simpa [falsyAuth, List.isEmpty_iff] using hne
  unfold handleDiscordRequest
  rw [hf, hauth]
  simp only [Bool.false_eq_true, if_false, Option.getD_some]
  cases hu : upstream (buildUrl req) (buildOptions req auth) with
  | failure => simp [hu]
  | success status jsonBody =>
    by_cases h204 : status = 204
    · simp [hu, h204]
    · cases jsonBody with
      | none => simp [hu, h204]
      | some d =>
        by_cases hok : 200 ≤ status ∧ status ≤ 299 <;> simp [hu, h204, hok]

/-- C2: an inbound request with no `Authorization` header is answered with
the 401 auth-error response and the upstream is never fetched. -/
theorem proxy_no_auth_no_upstream (req : ProxyRequest)
    (upstream : UrlM → FetchOptions → Upstream)
    (h : req.authorization = none) :
    handleDiscordRequest req upstream =
      { response := .jsonRes authErrorBody 401, calls := [],
        loggedError := false } := by
  unfold handleDiscordRequest
  rw [h]
  rfl

/-- Witness for C2 on a concrete request with no auth header. -/
theorem proxy_no_auth_no_upstream_witness :
    handleDiscordRequest
      ⟨Method.GET, [strLit "users"], [], none, []⟩
      (fun _ _ => Upstream.failure) =
      { response := .jsonRes authErrorBody 401, calls := [],
        loggedError := false } :=
  proxy_no_auth_no_upstream _ _ rfl

/-- C3 fails on the code: a DELETE with a non-empty body reaches the
upstream with no body at all (`method !== DELETE` guards body
forwarding), so DELETE bodies are dropped rather than forwarded. -/
theorem proxy_delete_body_dropped_cex :
    (handleDiscordRequest
      ⟨Method.DELETE, [strLit "channels"], [], some (strLit "Bot t"),
        strLit "x"⟩
      (fun _ _ => Upstream.success 204 none)).calls =
      [(⟨discordApiBase ++ '/' :: joinSlash [strLit "channels"], []⟩,
        ⟨Method.DELETE, strLit "Bot t", strLit "application/json", none⟩)] ∧
    strLit "x" ≠ [] :=
  ⟨rfl, by decide⟩

/-- C3 amended: for the mutating verbs POST, PUT and PATCH the non-empty
request body text is forwarded to the single upstream call unchanged; the
handler never forwards a body on DELETE. -/
theorem proxy_mutating_body_forwarded (req : ProxyRequest)
    (upstream : UrlM → FetchOptions → Upstream) (auth : Str)
    (hauth : req.authorization = some auth) (hne : auth ≠ [])
    (hm : req.method = .POST ∨ req.method = .PUT ∨ req.method = .PATCH)
    (hb : req.bodyText ≠ []) :
    ∃ u o, (handleDiscordRequest req upstream).calls = [(u, o)] ∧
      o.body = some req.bodyText := by
  refine ⟨buildUrl req, buildOptions req auth,
    handle_calls_single req upstream auth hauth hne, ?_⟩
  rcases hm with hm | hm | hm <;> simp [buildOptions, hm, hb]

/-- Witness for C3-amended on a concrete POST. -/
theorem proxy_mutating_body_forwarded_witness :
    ∃ u o,
      (handleDiscordRequest
        ⟨Method.POST, [strLit "channels"], [], some (strLit "Bot t"),
          strLit "hello"⟩
        (fun _ _ => Upstream.success 200 (some (strLit "ok")))).calls =
        [(u, o)] ∧
      o.body = some (strLit "hello") :=
  proxy_mutating_body_forwarded _ _ (strLit "Bot t") rfl (by decide)
    (Or.inl rfl) (by decide)

/-- C5: a non-2xx upstream status with a JSON-parseable body is passed
through with the same status and the upstream body; a body that is not
valid JSON (outside the body-less 204 path), or a failed upstream call,
yields the synthesized 500 internal-error body with the failure logged. -/
theorem proxy_error_passthrough (req : ProxyRequest)
    (upstream : UrlM → FetchOptions → Upstream) (auth : Str)
    (hauth : req.authorization = some auth) (hne : auth ≠ []) :
    (∀ status j,
      upstream (buildUrl req) (buildOptions req auth) =
        .success status (some j) →
      ¬(200 ≤ status ∧ status ≤ 299) →
      (handleDiscordRequest req upstream).response =
        .jsonRes (.upstreamData j) status ∧
      (handleDiscordRequest req upstream).loggedError = false) ∧
    (∀ status,
      upstream (buildUrl req) (buildOptions req auth) = .success status none →
      status ≠ 204 →
      (handleDiscordRequest req upstream).response =
        .jsonRes internalErrorBody 500 ∧
      (handleDiscordRequest req upstream).loggedError = true) ∧
    (upstream (buildUrl req) (buildOptions req auth) = .failure →
      (handleDiscordRequest req upstream).response =
        .jsonRes internalErrorBody 500 ∧
      (handleDiscordRequest req upstream).loggedError = true) := by
  have hf : falsyAuth req.authorization = false := by
    rw [hauth]
    simpa [falsyAuth, List.isEmpty_iff] using hne
  refine ⟨?_, ?_, ?_⟩
  · intro status j hu hok
    have h204 : status ≠ 204 := by omega
    unfold handleDiscordRequest
    rw [hf, hauth]
    simp [hu, h204, hok]
  · intro status hu h204
    unfold handleDiscordRequest
    rw [hf, hauth]
    simp [hu, h204]
  · intro hu
    unfold handleDiscordRequest
    rw [hf, hauth]
    simp [hu]

/-- Witness for C5: a concrete upstream 429 with a JSON body is passed
through with status 429 and the same body. -/
theorem proxy_error_passthrough_witness :
    (handleDiscordRequest
      ⟨Method.GET, [strLit "users"], [], some (strLit "Bot t"), []⟩
      (fun _ _ => Upstream.success 429 (some (strLit "rate limited")))).response =
      .jsonRes (.upstreamData (strLit "rate limited")) 429 ∧
    (handleDiscordRequest
      ⟨Method.GET, [strLit "users"], [], some (strLit "Bot t"), []⟩
      (fun _ _ => Upstream.success 429 (some (strLit "rate limited")))).loggedError =
      false :=
  (proxy_error_passthrough _ _ (strLit "Bot t") rfl (by decide)).1
    429 (strLit "rate limited") rfl (by omega)

/-- C10: on every verb other than GET the inbound query parameters are
dropped: the single upstream call's URL is built from the path segments
alone, with an empty query. -/
theorem proxy_nonget_query_dropped (req : ProxyRequest)
    (upstream : UrlM → FetchOptions → Upstream) (auth : Str)
    (hauth : req.authorization = some auth) (hne : auth ≠ [])
    (hm : req.method ≠ .GET) :
    (handleDiscordRequest req upstream).calls =
      [(⟨discordApiBase ++ '/' :: joinSlash req.path, []⟩,
        buildOptions req auth)] := by
  rw [handle_calls_single req upstream auth hauth hne]
  simp [buildUrl, hm]

/-- Witness for C10: a concrete POST with a non-empty query string reaches
the upstream with an empty query. -/
theorem proxy_nonget_query_dropped_witness :
    (handleDiscordRequest
      ⟨Method.POST, [strLit "channels"], [(strLit "k", strLit "v")],
        some (strLit "Bot t"), []⟩
      (fun _ _ => Upstream.success 200 (some (strLit "ok")))).calls =
      [(⟨discordApiBase ++ '/' :: joinSlash [strLit "channels"], []⟩,
        buildOptions
          ⟨Method.POST, [strLit "channels"], [(strLit "k", strLit "v")],
            some (strLit "Bot t"), []⟩
          (strLit "Bot t"))] :=
  proxy_nonget_query_dropped _ _ (strLit "Bot t") rfl (by decide) (by decide)

end BotClienty
